import Mathlib

/-!
Verification development for the CAFE configuration-language decoder
(repository ldatb/cafe, Go). The Go sources are embedded shallowly:

* Go strings are modelled as Lean String / List Char; all inputs exercised
  here are ASCII, so Go byte indices coincide with character indices.
* Go float64 / float32 arithmetic is modelled over the rationals.  The
  conversions performed by strconv.ParseFloat with bitSize 32 (round to
  nearest float32, ties to even) are modelled exactly by fround 24, and
  float64 rounding of single arithmetic operations by fround 53; subnormal
  underflow and overflow to infinity are outside the modelled range (every
  value appearing in the claims is a modest normal number).  Places where a
  Go operation could produce an IEEE infinity (division by zero) are noted
  at the definition and excluded by explicit hypotheses in the theorems.
* Go panics (index out of range, explicit panic calls) are modelled by
  Option: a result of none means the Go program aborts.
-/

namespace Cafe

/-! ## Character and string helpers mirroring the Go standard library -/

/-- Whitespace characters recognised by strings.TrimSpace as exercised here
(ASCII subset of unicode.IsSpace). -/
def isGoSpace (c : Char) : Bool :=
  c = ' ' || c = '\t' || c = '\n' || c = '\r'

/-- Drop leading characters satisfying p. -/
def dropWhileL (p : Char → Bool) : List Char → List Char
  | [] => []
  | c :: cs => if p c then dropWhileL p cs else c :: cs

/-- strings.TrimSpace on a character list. -/
def goTrimSpaceL (cs : List Char) : List Char :=
  (dropWhileL isGoSpace ((dropWhileL isGoSpace cs.reverse)).reverse)

/-- strings.TrimSpace. -/
def goTrimSpace (s : String) : String :=
  String.mk (goTrimSpaceL s.data)

/-- strings.Trim with a one-character cutset: remove all leading and
trailing occurrences of the character. -/
def goTrimChar (s : String) (q : Char) : String :=
  String.mk (dropWhileL (fun c => c = q)
    ((dropWhileL (fun c => c = q) s.data.reverse)).reverse)

/-- strings.TrimLeft with a one-character cutset. -/
def goTrimLeftChar (s : String) (q : Char) : String :=
  String.mk (dropWhileL (fun c => c = q) s.data)

/-- strings.TrimRight with a one-character cutset. -/
def goTrimRightChar (s : String) (q : Char) : String :=
  String.mk ((dropWhileL (fun c => c = q) s.data.reverse).reverse)

/-- equalsToMany from the Go sources: does the trimmed target equal one of
the trimmed candidates? -/
def goEqualsToMany (target : String) (values : List String) : Bool :=
  values.any (fun v => goTrimSpace target = goTrimSpace v)

/-- Does the list lead with the given pattern? (model of strings.HasPrefix
on character lists; the pattern is the first argument). -/
def leadsWith : List Char → List Char → Bool
  | [], _ => true
  | _ :: _, [] => false
  | a :: as, b :: bs => a = b && leadsWith as bs

/-- hasPrefixToMany from the Go sources. -/
def goHasPrefixToMany (target : String) (values : List String) : Bool :=
  values.any (fun v => leadsWith (goTrimSpace v).data (goTrimSpace target).data)

/-- strings.Contains: b occurs as a contiguous substring of s. -/
def containsSub (s sub : List Char) : Bool :=
  match s with
  | [] => leadsWith sub []
  | _ :: rest => leadsWith sub s || containsSub rest sub

/-- Numeric value of a list of decimal digit characters. -/
def digitsVal (cs : List Char) : ℕ :=
  cs.foldl (fun a d => a * 10 + (d.toNat - 48)) 0

/-- strconv.Atoi: an optional sign followed by at least one decimal digit
(the int64 range check is not modelled; no claim exercises it). -/
def goAtoi (s : String) : Option ℤ :=
  match s.data with
  | [] => none
  | c :: cs =>
    let signed : Bool × List Char :=
      if c = '-' then (true, cs) else if c = '+' then (false, cs) else (false, c :: cs)
    match signed with
    | (neg, ds) =>
      if ds.isEmpty then none
      else if ds.all (fun d => d.isDigit) then
        some (if neg then -(digitsVal ds : ℤ) else (digitsVal ds : ℤ))
      else none

/-! ## Exact fraction arithmetic

Go float values are modelled as exact fractions.  QR is a raw fraction of
integers: unlike Mathlib's normalised rationals it carries no gcd
computation, so every operation reduces fully inside the kernel and
closed-form results can be settled by decide.  All fractions built by this
development keep a positive denominator; toRat interprets a fraction as
the rational number it denotes. -/

/-- A raw fraction: numerator and (positive, by construction) denominator. -/
structure QR where
  num : ℤ
  den : ℤ
deriving DecidableEq, Repr

/-- The rational number denoted by a fraction. -/
def toRat (a : QR) : ℚ := (a.num : ℚ) / (a.den : ℚ)

/-- Embed an integer. -/
def qOfInt (n : ℤ) : QR := ⟨n, 1⟩

def qZero : QR := ⟨0, 1⟩

def qAdd (a b : QR) : QR := ⟨a.num * b.den + b.num * a.den, a.den * b.den⟩

def qSub (a b : QR) : QR := ⟨a.num * b.den - b.num * a.den, a.den * b.den⟩

def qMul (a b : QR) : QR := ⟨a.num * b.num, a.den * b.den⟩

def qNeg (a : QR) : QR := ⟨-a.num, a.den⟩

/-- Fraction division.  Division by zero yields 0 here; the corresponding
Go float division would produce an IEEE infinity, so every theorem about a
division excludes the zero divisor by hypothesis. -/
def qDiv (a b : QR) : QR :=
  if b.num = 0 then ⟨0, 1⟩
  else if b.num < 0 then ⟨-(a.num * b.den), a.den * (-b.num)⟩
  else ⟨a.num * b.den, a.den * b.num⟩

/-- Comparison (valid for positive denominators). -/
def qLt (a b : QR) : Bool := a.num * b.den < b.num * a.den

def qLe (a b : QR) : Bool := a.num * b.den ≤ b.num * a.den

/-- Value equality of fractions (cross multiplication). -/
def qEq (a b : QR) : Bool := a.num * b.den = b.num * a.den

/-- Floor of a fraction (positive denominator). -/
def qFloor (a : QR) : ℤ := a.num.fdiv a.den

/-- Is the fraction an integer, i.e. does the denominator divide the
numerator exactly? -/
def qIsInt (a : QR) : Bool := a.num % a.den = 0

/-- Split a character list at the first occurrence of the decimal point. -/
def splitAtDot : List Char → (List Char × Option (List Char))
  | [] => ([], none)
  | c :: cs =>
    if c = '.' then ([], some cs)
    else
      match splitAtDot cs with
      | (ip, fp) => (c :: ip, fp)

/-- The decimal-literal subset of the strconv.ParseFloat grammar: an
optional sign, decimal digits with at most one point, at least one digit
overall.  Exponent forms, Inf, NaN, hexadecimal floats and underscores are
accepted by Go but never appear in the inputs exercised by the claims and
are not modelled.  The result is the exact value of the literal; the
binary rounding that ParseFloat performs is applied separately by
fround. -/
def parseDecimal (s : String) : Option QR :=
  match s.data with
  | [] => none
  | c :: cs =>
    let signed : Bool × List Char :=
      if c = '-' then (true, cs) else if c = '+' then (false, cs) else (false, c :: cs)
    match signed with
    | (neg, ds) =>
      match splitAtDot ds with
      | (ip, fpo) =>
        let fp := fpo.getD []
        if ip.isEmpty && fp.isEmpty then none
        else if ip.all (fun d => d.isDigit) && fp.all (fun d => d.isDigit) then
          let n : ℤ := (digitsVal ip : ℤ) * 10 ^ fp.length + (digitsVal fp : ℤ)
          some ⟨if neg then -n else n, 10 ^ fp.length⟩
        else none

/-- Round a fraction to the nearest integer, ties to even (the IEEE 754
default used by ParseFloat conversions). -/
def roundHalfEven (a : QR) : ℤ :=
  let f := qFloor a
  let r := qSub a (qOfInt f)
  if qLt r ⟨1, 2⟩ then f
  else if qLt ⟨1, 2⟩ r then f + 1
  else if f % 2 = 0 then f else f + 1

/-- Scale a positive fraction by powers of two until it lies in [lo, hi);
returns the scaled value and the exponent used.  Fuel bounds the search;
3000 doublings/halvings cover every magnitude reachable from the decimal
literals of this development. -/
def frScale (lo hi : QR) : ℕ → QR → ℤ → Option (QR × ℤ)
  | 0, _, _ => none
  | fuel + 1, x, k =>
    if qLt x lo then frScale lo hi fuel (qMul x ⟨2, 1⟩) (k + 1)
    else if qLe hi x then frScale lo hi fuel (qMul x ⟨1, 2⟩) (k - 1)
    else some (x, k)

/-- Round a fraction to a binary floating-point value with the given number
of mantissa bits (24 for float32, 53 for float64), round to nearest, ties
to even.  Subnormals and overflow are outside the modelled range. -/
def fround (prec : ℕ) (a : QR) : QR :=
  if a.num = 0 then qZero
  else if a.num < 0 then qNeg (froundPos prec ⟨-a.num, a.den⟩)
  else froundPos prec a
where
  froundPos (prec : ℕ) (a : QR) : QR :=
    match frScale ⟨2 ^ (prec - 1), 1⟩ ⟨2 ^ prec, 1⟩ 3000 a 0 with
    | some (m, k) =>
      if 0 ≤ k then ⟨roundHalfEven m, 2 ^ k.toNat⟩
      else ⟨roundHalfEven m * 2 ^ (-k).toNat, 1⟩
    | none => qZero

/-- strconv.ParseFloat(s, 32): parse the decimal and round to float32. -/
def goParseFloat32 (s : String) : Option QR :=
  (parseDecimal s).map (fround 24)

/-- math.Round: round half away from zero. -/
def goRound (a : QR) : ℤ :=
  if 0 ≤ a.num then qFloor (qAdd a ⟨1, 2⟩)
  else -(qFloor (qAdd (qNeg a) ⟨1, 2⟩))

/-- Go conversion int(f) of a float64: truncation toward zero. -/
def ratTrunc (a : QR) : ℤ :=
  if 0 ≤ a.num then qFloor a else -(qFloor (qNeg a))

/-- strconv.Atoi applied to fmt.Sprint of a float64 value (the narrowing
step of the arithmetic evaluator).  fmt prints a float64 whose exponent is
at least 6 in scientific notation (1e+06 and beyond), which Atoi rejects,
and prints any non-integral value with a decimal point, also rejected; the
ignored Atoi error then leaves the zero value.  Hence: the integer itself
when the value is integral with magnitude below 10^6, otherwise 0. -/
def goSprintAtoi (a : QR) : ℤ :=
  if qIsInt a ∧ (a.num / a.den).natAbs < 1000000 then a.num / a.den else 0

/-- strconv.ParseBool: exactly the twelve strings of the Go switch. -/
def goParseBool (s : String) : Option Bool :=
  if s = "1" ∨ s = "t" ∨ s = "T" ∨ s = "TRUE" ∨ s = "true" ∨ s = "True" then some true
  else if s = "0" ∨ s = "f" ∨ s = "F" ∨ s = "FALSE" ∨ s = "false" ∨ s = "False" then some false
  else none

/-! ## The dynamic value union (attribute values) -/

/-- Evaluated attribute values: the Go sources use an untyped interface
slot holding string, int, float64, bool, a slice, or nil. -/
inductive Value where
  | str : String → Value
  | int : ℤ → Value
  | float : QR → Value
  | bool : Bool → Value
  | arr : List Value → Value
  | nil : Value

/-! ## transformItemArithmetic (parser_items.go)

The Go function first splits the expression text into an interface array of
numbers and one-character operator strings, then runs two passes over it
(multiplication/division first, then addition/subtraction) and finally
narrows the float64 result back to int when no operand was a float
literal.  Numbers are re-read at every use through
strconv.ParseFloat(fmt.Sprint(v), 32), modelled by entryVal: printing an
int or a float64 and re-parsing at bitSize 32 yields the float32 rounding
of the stored value.  Go float division by zero would produce an IEEE
infinity; rational division by zero yields 0 instead, and the theorems
below exclude that case by hypothesis. -/

/-- An element of the arithmetic work arrays: a number (Go int or float64,
both exact fractions here) or a one-character operator string. -/
inductive AEntry where
  | num : QR → AEntry
  | op : Char → AEntry
deriving DecidableEq, Repr

/-- The four operator characters recognised by the evaluator (the lexer
also captures %, which this evaluator treats as part of a number and hence
rejects). -/
def arithOpChars : List Char := ['+', '-', '*', '/']

/-- Is the entry an operator drawn from the given list?  (Models
equalsToMany(fmt.Sprint(v), ops): a printed number never equals an
operator string.) -/
def entryIsOpIn (e : AEntry) (l : List Char) : Bool :=
  match e with
  | .num _ => false
  | .op c => l.contains c

/-- Value of an entry as read back by ParseFloat(fmt.Sprint(v), 32): the
float32 rounding of a stored number, and 0 for an operator string (the
parse error is ignored in Go, leaving the zero value). -/
def entryVal (e : AEntry) : QR :=
  match e with
  | .num q => fround 24 q
  | .op _ => qZero

/-- First index strictly after i whose character is a space or an
arithmetic operator; 0 when there is none (the Go scan keeps only the
first match). -/
def arithScanEnd (item : List Char) (i : ℕ) : ℕ :=
  go (item.drop (i + 1)) (i + 1)
where
  go : List Char → ℕ → ℕ
    | [], _ => 0
    | c :: rest, j =>
      if c = ' ' || arithOpChars.contains c then j else go rest (j + 1)

/-- Tokenisation loop of transformItemArithmetic.  Walks the characters
with a skip counter; the first operand is cut at the next space/operator,
every later operand extends to the end of the string (which is why three
or more operands cannot be parsed: the tail is not a number).  Returns the
entry array and the hasFloat flag, or none where Go panics. -/
def arithTokAux (item : List Char) :
    List Char → ℕ → ℕ → List AEntry → Bool → Option (List AEntry × Bool)
  | [], _, _, arr, hf => some (arr, hf)
  | c :: rest, i, skip, arr, hf =>
    if skip ≠ 0 then arithTokAux item rest (i + 1) (skip - 1) arr hf
    else if c = ' ' then arithTokAux item rest (i + 1) 0 arr hf
    else if arithOpChars.contains c then
      match arr with
      | [] => none
      | e0 :: _ =>
        if entryIsOpIn e0 arithOpChars then none
        else arithTokAux item rest (i + 1) 0 (arr ++ [AEntry.op c]) hf
    else
      let parsed : Option ((List AEntry → List AEntry) × ℕ × Bool) :=
        if arr.isEmpty then
          let e := arithScanEnd item i
          if e ≤ i then none
          else
            let sub := String.mk ((item.drop i).take (e - i))
            match goAtoi sub with
            | some n => some (fun a => a ++ [AEntry.num (qOfInt n)], (e - i) - 1, hf)
            | none =>
              match parseDecimal sub with
              | some q => some (fun a => a ++ [AEntry.num (fround 24 q)], (e - i) - 1, true)
              | none => none
        else
          let sub := String.mk (item.drop i)
          match goAtoi sub with
          | some n => some (fun a => a ++ [AEntry.num (qOfInt n)], (item.drop i).length, hf)
          | none =>
            match parseDecimal sub with
            | some q => some (fun a => a ++ [AEntry.num (fround 24 q)], (item.drop i).length, true)
            | none => none
      match parsed with
      | none => none
      | some (push, skip2, hf2) =>
        if 2 ≤ arr.length ∧ ¬ entryIsOpIn ((arr.getLast?).getD (AEntry.op ' ')) arithOpChars then none
        else arithTokAux item rest (i + 1) skip2 (push arr) hf2

/-- Entry point of the tokenisation loop. -/
def arithTokenize (s : String) : Option (List AEntry × Bool) :=
  arithTokAux s.data s.data 0 0 [] false

/-- Apply one arithmetic operator in float64: both operands are re-read at
float32 precision (entryVal) and the result is rounded to float64. -/
def arithApply (c : Char) (v1 v2 : QR) : QR :=
  if c = '*' then fround 53 (qMul v1 v2)
  else if c = '/' then fround 53 (qDiv v1 v2)
  else if c = '+' then fround 53 (qAdd v1 v2)
  else fround 53 (qSub v1 v2)

/-- One pass of the evaluator: iterate over the fixed snapshot list orig
(reading operand values from it by absolute index) while shrinking the
work list; whenever orig[i] is an operator from opsel, compute
orig[i-1] op orig[i+1], drop i+1 elements from the work list and overwrite
its new head with the result.  none models the index-out-of-range panics
Go would raise on malformed arrays. -/
def arithPassAux (orig : List AEntry) (opsel : List Char) :
    List AEntry → ℕ → List AEntry → Option (List AEntry)
  | [], _, work => some work
  | e :: rest, i, work =>
    if entryIsOpIn e opsel then
      if i = 0 then none
      else
        match orig[i-1]?, orig[i+1]? with
        | some e1, some e2 =>
          match e with
          | .op c =>
            let r := arithApply c (entryVal e1) (entryVal e2)
            if work.length < i + 1 then none
            else
              match work.drop (i + 1) with
              | [] => none
              | _ :: t => arithPassAux orig opsel rest (i + 1) (AEntry.num r :: t)
          | .num _ => none
        | _, _ => none
    else arithPassAux orig opsel rest (i + 1) work

/-- transformItemArithmetic: tokenise, run the two passes, reject arrays
that did not shrink to one element, and narrow the result.  With hasFloat
unset the final value goes through Atoi(fmt.Sprint(...)) (goSprintAtoi),
otherwise through ParseFloat(fmt.Sprint(...), 32). -/
def transformItemArithmetic (item : String) : Option Value :=
  (arithTokenize item).bind fun tk =>
    match tk with
    | (arr, hf) =>
      (arithPassAux arr ['*', '/'] arr 0 arr).bind fun firstOps =>
        (arithPassAux firstOps ['+', '-'] firstOps 0 firstOps).bind fun ops =>
          if 1 < ops.length then none
          else
            match ops with
            | [] => none
            | e :: _ =>
              if hf then
                some (Value.float (match e with | .num q => fround 24 q | .op _ => qZero))
              else
                some (Value.int (match e with | .num q => goSprintAtoi q | .op _ => 0))

/-! ## transformItemComparison (parser_items.go)

Tokenises a comparison text into value and comparator substrings, then
dispatches: if either operand parses with strconv.ParseBool the comparator
must be == or != and both operands must be booleans; otherwise both must
parse with ParseFloat(..., 32) and the comparator is applied to the
float32 values. -/

/-- Characters that can start a comparator. -/
def compOpChars : List Char := ['=', '!', '>', '<']

/-- First index strictly after i holding a space or comparator character;
0 when there is none. -/
def compScanEnd (item : List Char) (i : ℕ) : ℕ :=
  go (item.drop (i + 1)) (i + 1)
where
  go : List Char → ℕ → ℕ
    | [], _ => 0
    | c :: rest, j =>
      if c = ' ' || compOpChars.contains c then j else go rest (j + 1)

/-- Tokenisation loop of transformItemComparison.  The skip flag marks
that the previous character was the first of a two-character comparator.
Reading item[i+1] past the end of the string, or slicing the first operand
with no comparator ahead, is a Go panic (none). -/
def compTokAux (item : List Char) :
    List Char → ℕ → Bool → List String → Option (List String)
  | [], _, _, arr => some arr
  | c :: rest, i, skip, arr =>
    if c = ' ' then compTokAux item rest (i + 1) skip arr
    else if skip then compTokAux item rest (i + 1) false arr
    else if compOpChars.contains c then
      match (item.drop (i + 1)).head? with
      | none => none
      | some c2 =>
        let two := c2 = '='
        if arr.isEmpty then none
        else
          compTokAux item rest (i + 1) two
            (arr ++ [String.mk ((item.drop i).take (if two then 2 else 1))])
    else
      if arr.isEmpty then
        let e := compScanEnd item i
        if e = 0 then
          if i = 0 then compTokAux item rest (i + 1) skip (arr ++ [""])
          else none
        else compTokAux item rest (i + 1) skip (arr ++ [String.mk ((item.drop i).take (e - i))])
      else if 1 < arr.length ∧ arr.length < 3 then
        compTokAux item rest (i + 1) skip (arr ++ [String.mk (item.drop i)])
      else compTokAux item rest (i + 1) skip arr

/-- Entry point of the comparison tokenisation loop. -/
def compTokenize (s : String) : Option (List String) :=
  compTokAux s.data s.data 0 false []

/-- The numeric branch: both operands re-parsed at float32, the comparator
switch applied with the Go fall-through default of false. -/
def compNumeric (a c b : String) : Option Value :=
  match goParseFloat32 a, goParseFloat32 b with
  | some v1, some v2 =>
    some (Value.bool
      (if c = "==" then qEq v1 v2
       else if c = "!=" then !(qEq v1 v2)
       else if c = ">" then qLt v2 v1
       else if c = ">=" then qLe v2 v1
       else if c = "<" then qLt v1 v2
       else if c = "<=" then qLe v1 v2
       else false))
  | _, _ => none

/-- The dispatch of transformItemComparison on the three tokens: the
boolean branch requires ==/!= and two booleans.  A comparator that passed
the trimmed ==/!= check but matches neither switch case would fall through
to the numeric branch, as in the Go source. -/
def compEval (a c b : String) : Option Value :=
  let pb1 := goParseBool a
  let pb2 := goParseBool b
  if pb1.isSome || pb2.isSome then
    if ¬ goEqualsToMany c ["==", "!="] then none
    else if pb1.isNone || pb2.isNone then none
    else
      match pb1, pb2 with
      | some b1, some b2 =>
        if c = "==" then some (Value.bool (b1 == b2))
        else if c = "!=" then some (Value.bool (b1 != b2))
        else compNumeric a c b
      | _, _ => none
  else compNumeric a c b

/-- transformItemComparison: more than three tokens is an explicit panic,
fewer than three is an index-out-of-range panic, otherwise compEval. -/
def transformItemComparison (item : String) : Option Value :=
  (compTokenize item).bind fun arr =>
    if 3 < arr.length then none
    else
      match arr with
      | [a, c, b] => compEval a c b
      | _ => none

/-! ## The built-in function library (parser_functions.go) -/

/-- math.Round(val * 10^k) / 10^k: the precision-rounding pattern applied
to float literals (k is the source text length minus one).  Go computes
10^k in float64, exact for every k reached here. -/
def goRoundPrec (v : QR) (k : ℕ) : QR :=
  qDiv (qOfInt (goRound (qMul v ⟨10 ^ k, 1⟩))) ⟨10 ^ k, 1⟩

/-- math.Pow for the integer exponents reached by this development (the
result of a non-integer exponent is irrational and outside the fraction
model; it is mapped to 0 and never relied upon).  A negative exponent of a
zero base would be an IEEE infinity in Go and is likewise mapped to 0
through qDiv. -/
def goPow (a b : QR) : QR :=
  if qIsInt b then
    let e := b.num / b.den
    if 0 ≤ e then ⟨a.num ^ e.toNat, a.den ^ e.toNat⟩
    else qDiv (qOfInt 1) ⟨a.num ^ (-e).toNat, a.den ^ (-e).toNat⟩
  else qZero

/-- stringFunctions: parameters are trimmed and stripped of quotes; the
switch dispatches on the function name.  concat is an unimplemented stub
returning nil.  Case conversion and length are exercised on ASCII only. -/
def stringFunctions (funcName : String) (funcParams : List String) : Option Value :=
  let vals := funcParams.map (fun v => goTrimChar (goTrimSpace v) '"')
  if funcName = "upper" then
    (vals[0]?).map (fun s => Value.str (String.mk (s.data.map Char.toUpper)))
  else if funcName = "lower" then
    (vals[0]?).map (fun s => Value.str (String.mk (s.data.map Char.toLower)))
  else if funcName = "append" then
    match vals[0]?, vals[1]? with
    | some a, some b => some (Value.str (a ++ b))
    | _, _ => none
  else if funcName = "concat" then some Value.nil
  else if funcName = "contains" then
    match vals[0]?, vals[1]? with
    | some a, some b => some (Value.bool (containsSub a.data b.data))
    | _, _ => none
  else if funcName = "length" then
    (vals[0]?).map (fun s => Value.int s.length)
  else none

/-- numericalFunctions: every parameter that parses as a float32 is
rounded at 10^(len-1) (parse failures silently leave the zero value), the
hasInt flag is set when ANY parameter parses with Atoi, and the float64
result is truncated to int exactly when hasInt is set. -/
def numericalFunctions (funcName : String) (funcParams : List String) : Option Value :=
  let floatParams := funcParams.map (fun v =>
    match goParseFloat32 (goTrimSpace v) with
    | some q => goRoundPrec q ((goTrimSpace v).length - 1)
    | none => qZero)
  let hasInt := funcParams.any (fun v => (goAtoi (goTrimSpace v)).isSome)
  let apply2 : (QR → QR → QR) → Option Value := fun f =>
    match floatParams[0]?, floatParams[1]? with
    | some a, some b =>
      some (if hasInt then Value.int (ratTrunc (f a b)) else Value.float (f a b))
    | _, _ => none
  if funcName = "power" then apply2 goPow
  else if funcName = "floor" then apply2 (fun a b => qOfInt (qFloor (qDiv a b)))
  else if funcName = "remainder" then
    apply2 (fun a b => qSub a (qMul b (qOfInt (ratTrunc (qDiv a b)))))
  else none

/-- gateLogicFunctions: every parameter must parse with strconv.ParseBool
(a failure is a panic before the switch); the gates are computed exactly
as written in the Go source, where the and gate is boolParams[0] ==
boolParams[1] and the nand gate is its negation. -/
def gateLogicFunctions (funcName : String) (funcParams : List String) : Option Value :=
  match funcParams.mapM (fun v => goParseBool (goTrimSpace v)) with
  | none => none
  | some bs =>
    match bs[0]?, bs[1]? with
    | some b0, some b1 =>
      if funcName = "and" then some (Value.bool (b0 == b1))
      else if funcName = "or" then some (Value.bool (b0 || b1))
      else if funcName = "nand" then some (Value.bool (!(b0 == b1)))
      else if funcName = "nor" then some (Value.bool (!(b0 || b1)))
      else if funcName = "xor" then some (Value.bool (b0 != b1))
      else if funcName = "xnor" then some (Value.bool (!(b0 != b1)))
      else none
    | _, _ => none

/-- First index at which the pattern sep occurs in the list. -/
def findSub (sep : List Char) : List Char → ℕ → Option ℕ
  | [], i => if sep.isEmpty then some i else none
  | c :: rest, i =>
    if leadsWith sep (c :: rest) then some i else findSub sep rest (i + 1)

/-- First index i at or after the given start whose character is a comma
(the parameter-splitting scan of transformItemFunction; its
insideBrackets flag is declared inside the loop body in Go and hence is
always false at the comma test, so quoted commas are not protected). -/
def findCommaFrom : List Char → ℕ → ℕ → Option ℕ
  | [], _, _ => none
  | c :: rest, i, start =>
    if start ≤ i ∧ c = ',' then some i else findCommaFrom rest (i + 1) start

/-- transformItemFunction: the function name is the trimmed text before
the first parenthesis (no parenthesis is a slice panic), single-parameter
functions take the whole parenthesised text, all others split at the
first comma; dispatch is by name family with unknown names a panic. -/
def transformItemFunction (item : String) : Option Value :=
  match findSub ['('] item.data 0 with
  | none => none
  | some fnIdx =>
    let funcName := goTrimSpace (String.mk (item.data.take fnIdx))
    let funcParams : Option (List String) :=
      if goEqualsToMany funcName ["upper", "lower", "length"] then
        if fnIdx + 2 ≤ item.length then
          some [String.mk ((item.data.drop (fnIdx + 1)).take (item.length - 1 - (fnIdx + 1)))]
        else none
      else
        match findCommaFrom item.data 0 fnIdx with
        | some i =>
          if i + 2 ≤ item.length then
            some [String.mk ((item.data.drop (fnIdx + 1)).take (i - (fnIdx + 1))),
                  String.mk ((item.data.drop (i + 1)).take (item.length - 1 - (i + 1)))]
          else none
        | none => some []
    funcParams.bind fun ps =>
      if goEqualsToMany funcName ["upper", "lower", "append", "concat", "contains", "length"] then
        stringFunctions funcName ps
      else if goEqualsToMany funcName ["power", "floor", "remainder"] then
        numericalFunctions funcName ps
      else if goEqualsToMany funcName ["and", "or", "nand", "nor", "xor", "xnor"] then
        gateLogicFunctions funcName ps
      else none

/-! ## transformItemMultiString and transformItemArray (parser_items.go) -/

/-- The element-collection loop of transformItemMultiString: scan for runs
that start at a non-tab non-newline character; a run ended by a tab or
newline is stored without its last two characters (the continuation
backslash and the space before it), a run ended by the last index is
stored up to but excluding that index.  A cut falling before the start of
the run is a Go slice panic. -/
def multiStrAux (item : List Char) :
    List Char → ℕ → Bool → ℕ → List (List Char) → Option (List (List Char))
  | [], _, _, _, acc => some acc
  | c :: rest, i, found, start, acc =>
    if found ∧ (c = '\t' ∨ c = '\n') then
      if start + 2 ≤ i then
        multiStrAux item rest (i + 1) false start
          (acc ++ [(item.drop start).take (i - 2 - start)])
      else none
    else if found ∧ i = item.length - 1 then
      multiStrAux item rest (i + 1) false start
        (acc ++ [(item.drop start).take (i - start)])
    else if ¬ found ∧ (c ≠ '\t' ∧ c ≠ '\n') then
      multiStrAux item rest (i + 1) true i acc
    else multiStrAux item rest (i + 1) found start acc

/-- transformItemMultiString: collect the segments, strip quotes from
each, join with single spaces. -/
def transformItemMultiString (item : String) : Option Value :=
  (multiStrAux item.data item.data 0 false 0 []).map fun elems =>
    Value.str (String.intercalate " " (elems.map (fun e => goTrimChar (String.mk e) '"')))

/-- strings.Split: split at every non-overlapping occurrence of sep (the
fuel is an upper bound on the number of pieces). -/
def splitSubAux (sep : List Char) : ℕ → List Char → List (List Char)
  | 0, cs => [cs]
  | fuel + 1, cs =>
    match findSub sep cs 0 with
    | none => [cs]
    | some k => cs.take k :: splitSubAux sep fuel (cs.drop (k + sep.length))

/-- strings.Split on strings. -/
def goSplitSub (s sep : String) : List String :=
  (splitSubAux sep.data (s.length + 1) s.data).map String.mk

/-- transformItemArray: strip the brackets, split on ", ", drop the first
piece (the text before the array proper, usually empty), and classify
every element independently as int, float (with the 10^(len-1) rounding),
bool, or quote-stripped string. -/
def transformItemArray (item : String) : Value :=
  let t := goTrimRightChar (goTrimLeftChar item '[') ']'
  let freeElems := (goSplitSub t ", ").drop 1
  Value.arr (freeElems.map fun elem =>
    match goAtoi elem with
    | some n => Value.int n
    | none =>
      match goParseFloat32 elem with
      | some v => Value.float (goRoundPrec v (elem.length - 1))
      | none =>
        match goParseBool elem with
        | some b => Value.bool b
        | none => Value.str (goTrimChar elem '"'))

/-! ## Token kinds and transformItem (lexer.go, parser_items.go) -/

/-- The token kinds of the lexer. -/
inductive keyKind where
  | keyNIL
  | keyEOF
  | keyTab
  | keyError
  | keyComment
  | keyAttrDef
  | keyBlockStart
  | keyBlockEnd
  | keyAttrCall
  | keyString
  | keyMultiString
  | keyInt
  | keyFloat
  | keyBool
  | keyArrayStart
  | keyArrayEnd
  | keyArrayElem
  | keyArithmetic
  | keyComparison
  | keyCondition
  | keyFunction
deriving DecidableEq, Repr

open keyKind

/-- transformItem: dispatch a raw token text on its kind.  The condition
kind is recognised but unevaluated (Go returns nil); an unknown kind is a
panic. -/
def transformItem (item : String) (kind : keyKind) : Option Value :=
  if kind = keyString then some (Value.str (goTrimChar item '"'))
  else if kind = keyMultiString then transformItemMultiString item
  else if kind = keyInt then
    match goAtoi item with
    | some n => some (Value.int n)
    | none => none
  else if kind = keyFloat then
    match goParseFloat32 item with
    | some v => some (Value.float (goRoundPrec v (item.length - 1)))
    | none => none
  else if kind = keyBool then
    match goParseBool item with
    | some b => some (Value.bool b)
    | none => none
  else if kind = keyArrayStart ∨ kind = keyArrayElem then some (transformItemArray item)
  else if kind = keyArithmetic then transformItemArithmetic item
  else if kind = keyComparison then transformItemComparison item
  else if kind = keyCondition then some Value.nil
  else if kind = keyFunction then transformItemFunction item
  else none

/-- The value the C5 claim prescribes for a float token: the parsed
float32 rounded to the number of decimal digits present in the source
text (the digits after the point), rather than to the text length minus
one.  Defined from the words of the claim for comparison with
transformItem. -/
def floatClaimValue (s : String) : Option QR :=
  (goParseFloat32 s).map fun v =>
    goRoundPrec v ((splitAtDot s.data).2.getD []).length

/-! ## The scanner (lexer.go)

The lexer walks the input character list with a current index, trying an
ordered list of rules; the first rule that matches wins.  Each rule is a
function LexerSt → Option (Bool × LexerSt): the Bool is the Go return
value (rule fired), none is a panic.  Indices and lengths are Go ints,
modelled as ℤ. -/

/-- A finalised token. -/
structure Item where
  kind : keyKind
  value : String
  line : ℤ
  start : ℤ
  length : ℤ
deriving DecidableEq, Repr

/-- The mutable token accumulator (prototype). -/
structure Proto where
  kind : keyKind
  value : List Char
  length : ℤ
deriving DecidableEq, Repr

/-- The lexer state (the Go lexer struct). -/
structure LexerSt where
  input : List Char
  items : List Item
  proto : Proto
  currentLine : ℤ
  currentByteIndex : ℤ
  currentByte : Char
  lastEOL : ℤ
  atEOF : Bool
deriving DecidableEq, Repr

/-- Go slice input[a:b] as used by the lexer.  Out-of-range portions are
truncated: the only rule that can read past the end of the input is
lexTab, where Go reads zero-value padding inside the slice capacity. -/
def goSlice (l : List Char) (a b : ℤ) : List Char :=
  (l.drop a.toNat).take (b - a).toNat

/-- Bounds-checked element access; none models a Go index panic. -/
def charAt (l : List Char) (i : ℤ) : Option Char :=
  if 0 ≤ i then l[i.toNat]? else none

/-- peekAndFind: first occurrence of key strictly after idx, stopping at a
newline (unless searching for the newline itself). -/
def scanKF (key : Char) (idx : ℤ) : List Char → ℤ → Bool × ℤ
  | [], _ => (false, 0)
  | c :: rest, i =>
    if i > idx then
      if c = '\n' ∧ key ≠ '\n' then (false, 0)
      else if c = key then (true, i)
      else scanKF key idx rest (i + 1)
    else scanKF key idx rest (i + 1)

def peekAndFind (st : LexerSt) (key : Char) : Bool × ℤ :=
  scanKF key st.currentByteIndex st.input 0

/-- peekAndFindAfter: as peekAndFind but only indices after both bounds. -/
def scanKFA (key : Char) (idx after : ℤ) : List Char → ℤ → Bool × ℤ
  | [], _ => (false, 0)
  | c :: rest, i =>
    if i > idx ∧ i > after then
      if c = '\n' ∧ key ≠ '\n' then (false, 0)
      else if c = key then (true, i)
      else scanKFA key idx after rest (i + 1)
    else scanKFA key idx after rest (i + 1)

def peekAndFindAfter (st : LexerSt) (key : Char) (after : ℤ) : Bool × ℤ :=
  scanKFA key st.currentByteIndex after st.input 0

/-- peekAndFindMany: is one of the keys found strictly after idx before
the next newline? -/
def scanKFM (keys : List Char) (idx : ℤ) : List Char → ℤ → Bool
  | [], _ => false
  | c :: rest, i =>
    if i > idx then
      if c = '\n' then false
      else if keys.contains c then true
      else scanKFM keys idx rest (i + 1)
    else scanKFM keys idx rest (i + 1)

def peekAndFindMany (st : LexerSt) (keys : List Char) : Bool :=
  scanKFM keys st.currentByteIndex st.input 0

/-- peekEOL: index of the next newline after idx, or the last index of the
input, or 0 when neither applies. -/
def scanEOL (idx : ℤ) (total : ℤ) : List Char → ℤ → ℤ
  | [], _ => 0
  | c :: rest, i =>
    if i > idx then
      if c = '\n' then i
      else if i = total - 1 then i
      else scanEOL idx total rest (i + 1)
    else scanEOL idx total rest (i + 1)

def peekEOL (st : LexerSt) : ℤ :=
  scanEOL st.currentByteIndex (st.input.length : ℤ) st.input 0

/-- peekComment: first // after idx and after the given bound, before the
next newline.  Reading input[i+1] when the slash is the last character is
an index panic (none). -/
def scanComment (l0 : List Char) (idx after : ℤ) : List Char → ℤ → Option (Bool × ℤ)
  | [], _ => some (false, 0)
  | c :: rest, i =>
    if i > idx ∧ i > after then
      if c = '\n' then some (false, 0)
      else if c = '/' then
        match charAt l0 (i + 1) with
        | none => none
        | some c2 =>
          if c2 = '/' then some (true, i) else scanComment l0 idx after rest (i + 1)
      else scanComment l0 idx after rest (i + 1)
    else scanComment l0 idx after rest (i + 1)

def peekComment (st : LexerSt) (after : ℤ) : Option (Bool × ℤ) :=
  scanComment st.input st.currentByteIndex after st.input 0

/-- previousByte: the character before the current index, a newline at the
start of the input (the index is in range whenever a rule runs). -/
def previousByte (st : LexerSt) : Char :=
  if st.currentByteIndex = 0 then '\n'
  else (charAt st.input (st.currentByteIndex - 1)).getD '\x00'

/-- Are all characters strictly between the two bounds spaces? (the
attribute-definition rule's start-of-line check). -/
def allSpacesBetween (lo hi : ℤ) : List Char → ℤ → Bool
  | [], _ => true
  | c :: rest, i =>
    if lo < i ∧ i < hi then c = ' ' && allSpacesBetween lo hi rest (i + 1)
    else allSpacesBetween lo hi rest (i + 1)

/-- searchNonWhitespacedValue: the first run of non-whitespace characters
at or after the current index, returned trimmed together with its bounds;
("", 0, 0) when no run was delimited.  The firstIndex = 0 sentinel of the
Go code is kept as written. -/
def searchNWVAux (idx total : ℤ) : List Char → ℤ → ℤ → ℤ → ℤ × ℤ
  | [], _, fi, li => (fi, li)
  | c :: rest, i, fi, li =>
    if i ≥ idx then
      let fi2 := if fi = 0 ∧ c ≠ ' ' ∧ c ≠ '\n' then i else fi
      if fi2 ≠ 0 ∧ li = 0 ∧ (c = ' ' ∨ c = '\n') then (fi2, i)
      else if i = total - 1 then (fi2, i + 1)
      else searchNWVAux idx total rest (i + 1) fi2 li
    else searchNWVAux idx total rest (i + 1) fi li

def searchNonWhitespacedValue (st : LexerSt) : String × ℤ × ℤ :=
  match searchNWVAux st.currentByteIndex (st.input.length : ℤ) st.input 0 0 0 with
  | (fi, li) =>
    if li = 0 then ("", 0, 0)
    else (goTrimSpace (String.mk (goSlice st.input fi li)), fi, li)

/-- next: flush a pending prototype into the item list (with the value
trimmed and the start position stamped from the current index), guard
against a next call at end of input, optionally bump the line counter and
re-find the last end of line, then advance the index — by one for
whitespace rules, past the last item otherwise — updating the end-of-file
flag and the cached current character.  A flush with no items (Go
items[len-1] on an empty slice) and an advance beyond the input are index
panics. -/
def next (st : LexerSt) (whitespace eol : Bool) : Option LexerSt :=
  let st1 :=
    if st.proto.kind ≠ keyNIL then
      { st with
        items := st.items ++ [{ kind := st.proto.kind,
                                value := goTrimSpace (String.mk st.proto.value),
                                line := st.currentLine,
                                start := st.currentByteIndex,
                                length := st.proto.length }],
        proto := ⟨keyNIL, [], 0⟩ }
    else st
  match st1.items.getLast? with
  | none => none
  | some lastItem =>
    let lastItemLastByte := lastItem.start + lastItem.length
    if lastItemLastByte = (st1.input.length : ℤ) + 1 then none
    else
      let st2 :=
        if eol then
          { st1 with currentLine := st1.currentLine + 1,
                     lastEOL := (peekAndFind st1 '\n').2 }
        else st1
      let st3 :=
        if st2.currentByteIndex = (st2.input.length : ℤ) - 1 then { st2 with atEOF := true }
        else st2
      if st3.atEOF then some st3
      else
        let idx2 := if whitespace then st3.currentByteIndex + 1 else lastItemLastByte + 1
        if idx2 = (st3.input.length : ℤ) then
          some { st3 with currentByteIndex := idx2, atEOF := true }
        else
          match charAt st3.input idx2 with
          | none => none
          | some c => some { st3 with currentByteIndex := idx2, currentByte := c }

/-- lexEOF: never fires, but sets the end-of-file flag when the index is
at the last character. -/
def lexEOF (st : LexerSt) : Bool × LexerSt :=
  (false, if st.currentByteIndex = (st.input.length : ℤ) - 1 then { st with atEOF := true } else st)

/-- lexTab: the Go source joins input[i : i+3] — three characters — and
compares the result with a four-space string, so the rule can never fire;
the four next calls of its body are kept as written. -/
def lexTab (st : LexerSt) : Option (Bool × LexerSt) :=
  let next4Characters :=
    String.mk (goSlice st.input st.currentByteIndex (st.currentByteIndex + 3))
  if next4Characters = "    " then
    (next st true false).bind fun s1 =>
      (next s1 true false).bind fun s2 =>
        (next s2 true false).bind fun s3 =>
          (next s3 true false).map fun s4 => (true, s4)
  else some (false, st)

def lexEOL (st : LexerSt) : Option (Bool × LexerSt) :=
  if st.currentByte = '\n' ∧ st.currentByteIndex ≠ 0 then
    (next st true true).map fun s => (true, s)
  else some (false, st)

def lexWhitespace (st : LexerSt) : Option (Bool × LexerSt) :=
  if st.currentByte = ' ' then (next st true false).map fun s => (true, s)
  else some (false, st)

def lexComment (st : LexerSt) : Option (Bool × LexerSt) :=
  if st.currentByte ≠ '/' then some (false, st)
  else
    match charAt st.input (st.currentByteIndex + 1) with
    | none => none
    | some c2 =>
      if c2 ≠ '/' then some (false, st)
      else
        let nextEOL := peekEOL st
        let st2 := { st with proto :=
          ⟨keyComment, goSlice st.input st.currentByteIndex nextEOL,
           nextEOL - st.currentByteIndex⟩ }
        (next st2 false true).map fun s => (true, s)

/-- lexAttributeDef: not directly after another attribute definition, only
after a newline or pure whitespace, and an equals sign must lie ahead on
the line. -/
def lexAttributeDef (st : LexerSt) : Option (Bool × LexerSt) :=
  let prevIsAttr : Bool :=
    match st.items.getLast? with
    | some it => it.kind == keyAttrDef
    | none => false
  if prevIsAttr then some (false, st)
  else
    let wsOK :=
      if previousByte st = '\n' then true
      else allSpacesBetween st.lastEOL st.currentByteIndex st.input 0
    if ¬ wsOK then some (false, st)
    else
      match peekAndFind st '=' with
      | (false, _) => some (false, st)
      | (true, equalIndex) =>
        let st2 := { st with proto :=
          ⟨keyAttrDef, goSlice st.input st.currentByteIndex equalIndex,
           equalIndex - st.currentByteIndex⟩ }
        (next st2 false false).map fun s => (true, s)

/-- lexBlockStart: the current character, or any character before the next
newline, is an opening brace. -/
def lexBlockStart (st : LexerSt) : Option (Bool × LexerSt) :=
  let pr := if st.currentByte = '{' then (true, st.currentByteIndex) else peekAndFind st '{'
  match pr with
  | (false, _) => some (false, st)
  | (true, openBraceIndex) =>
    let st2 := { st with proto :=
      ⟨keyBlockStart, goSlice st.input st.currentByteIndex openBraceIndex,
       openBraceIndex - st.currentByteIndex⟩ }
    (next st2 false false).map fun s => (true, s)

def lexBlockEnd (st : LexerSt) : Option (Bool × LexerSt) :=
  let pr := if st.currentByte = '}' then (true, st.currentByteIndex) else peekAndFind st '}'
  match pr with
  | (false, _) => some (false, st)
  | (true, closeBraceIndex) =>
    let st2 := { st with proto :=
      ⟨keyBlockEnd, goSlice st.input st.currentByteIndex closeBraceIndex,
       closeBraceIndex - st.currentByteIndex⟩ }
    (next st2 false false).map fun s => (true, s)

/-- The registered function-name open-parenthesis forms recognised by the
function rule. -/
def allFunctionNames : List String :=
  ["upper(", "lower(", "append(", "concat(", "contains(", "length(",
   "power(", "floor(", "remainder(",
   "and(", "or(", "nand(", "nor(", "xor(", "xnor("]

/-- lexAttrFunction: only after an attribute definition (previousItem on
an empty item list is an index panic); the text up to the next comment or
end of line must lead with a registered function-name form. -/
def lexAttrFunction (st : LexerSt) : Option (Bool × LexerSt) :=
  match st.items.getLast? with
  | none => none
  | some prev =>
    if prev.kind ≠ keyAttrDef then some (false, st)
    else
      (peekComment st st.currentByteIndex).bind fun pc =>
        let endOfElem := if pc.1 then pc.2 else peekEOL st
        let searchFunctionCall := String.mk (goSlice st.input st.currentByteIndex endOfElem)
        if ¬ goHasPrefixToMany searchFunctionCall allFunctionNames then some (false, st)
        else
          let st2 := { st with proto :=
            ⟨keyFunction, goSlice st.input st.currentByteIndex endOfElem,
             (endOfElem - 1) - st.currentByteIndex⟩ }
          (next st2 false false).map fun s => (true, s)

/-- lexArrayStart: only after an attribute definition, not a quoted
string, and an opening bracket at or ahead of the index. -/
def lexArrayStart (st : LexerSt) : Option (Bool × LexerSt) :=
  match st.items.getLast? with
  | none => none
  | some prev =>
    if prev.kind ≠ keyAttrDef then some (false, st)
    else if st.currentByte = '"' then some (false, st)
    else
      let pr := if st.currentByte = '[' then (true, st.currentByteIndex) else peekAndFind st '['
      match pr with
      | (false, _) => some (false, st)
      | (true, openBracketIndex) =>
        let st2 := { st with proto :=
          ⟨keyArrayStart, goSlice st.input st.currentByteIndex openBracketIndex,
           openBracketIndex - st.currentByteIndex⟩ }
        (next st2 false false).map fun s => (true, s)

/-- lexArrayEnd: only after an array start or element, no comma ahead, a
closing bracket ahead not beyond the end of the line. -/
def lexArrayEnd (st : LexerSt) : Option (Bool × LexerSt) :=
  match st.items.getLast? with
  | none => none
  | some prev =>
    if prev.kind ≠ keyArrayStart ∧ prev.kind ≠ keyArrayElem then some (false, st)
    else if st.currentByte = '"' then some (false, st)
    else if (peekAndFind st ',').1 then some (false, st)
    else
      let pr := if st.currentByte = ']' then (true, st.currentByteIndex) else peekAndFind st ']'
      match pr with
      | (false, _) => some (false, st)
      | (true, closeIndex) =>
        if peekEOL st < closeIndex then some (false, st)
        else
          let st2 := { st with proto :=
            ⟨keyArrayEnd, goSlice st.input st.currentByteIndex closeIndex,
             closeIndex - st.currentByteIndex⟩ }
          (next st2 false false).map fun s => (true, s)

/-- lexArrayElem: only after an array start or element; the element runs
to the next comma, else to the closing bracket (with the stored length one
shorter), else to the end of the line (a multi-line array's last
element). -/
def lexArrayElem (st : LexerSt) : Option (Bool × LexerSt) :=
  match st.items.getLast? with
  | none => none
  | some prev =>
    if prev.kind ≠ keyArrayStart ∧ prev.kind ≠ keyArrayElem then some (false, st)
    else
      let r1 := peekAndFind st ','
      let r2 := if r1.1 then (r1.2, (0 : ℤ), false)
        else
          let rb := peekAndFind st ']'
          if rb.1 then (rb.2, (1 : ℤ), false) else (peekEOL st, (1 : ℤ), true)
      match r2 with
      | (endOfArrayElem, lengthModifier, isEOL) =>
        let st2 := { st with proto :=
          ⟨keyArrayElem, goSlice st.input st.currentByteIndex endOfArrayElem,
           endOfArrayElem - st.currentByteIndex - lengthModifier⟩ }
        (next st2 false isEOL).map fun s => (true, s)

/-- Is a backslash present strictly between the two bounds? -/
def existsBackslashBetween (lo hi : ℤ) : List Char → ℤ → Bool
  | [], _ => false
  | c :: rest, i =>
    if lo < i ∧ i < hi ∧ c = '\\' then true
    else existsBackslashBetween lo hi rest (i + 1)

/-- The final-newline search of lexAttrMultiString: the first newline
after the index whose line contains no continuation backslash, together
with the number of newlines seen up to it. -/
def multiFinalEOL (l : List Char) (idx : ℤ) : ℤ × ℤ :=
  go l 0 0 (idx + 1) 0
where
  go : List Char → ℤ → ℤ → ℤ → ℤ → ℤ × ℤ
    | [], _, finalEOL, _, lines => (finalEOL, lines)
    | c :: rest, i, finalEOL, lastStart, lines =>
      if i > idx ∧ c = '\n' ∧ finalEOL = 0 then
        let lastLine := ¬ existsBackslashBetween lastStart i l 0
        go rest (i + 1) (if lastLine then i else 0) (i + 1) (lines + 1)
      else go rest (i + 1) finalEOL lastStart lines

/-- The four-space-to-tab rewrite of lexAttrMultiString, transcribed from
the Go loop (whose in-place append aliasing is interpreted functionally;
no theorem exercises this rewrite — it is only reached behind a backslash
continuation, absent from every input settled here). -/
def tabRewrite (v0 : List Char) : List Char :=
  go v0 0 v0
where
  go : List Char → ℕ → List Char → List Char
    | [], _, cur => cur
    | c :: rest, i, cur =>
      if i + 4 ≤ cur.length ∧ c ≠ '\n' ∧ goTrimSpaceL ((cur.drop i).take 3) = [] then
        go rest (i + 1) ((cur.take (i - 1)) ++ '\t' :: cur.drop (i + 3))
      else go rest (i + 1) cur

/-- lexAttrMultiString: after an attribute definition, with an opening and
a closing quote and a continuation backslash on the line; scans forward to
the first line with no continuation backslash (an unterminated string is a
panic), rewrites space runs to tab marks and bumps the line counter. -/
def lexAttrMultiString (st : LexerSt) : Option (Bool × LexerSt) :=
  match st.items.getLast? with
  | none => none
  | some prev =>
    if prev.kind ≠ keyAttrDef then some (false, st)
    else
      let openQuoteIndex :=
        if st.currentByte = '"' then st.currentByteIndex
        else
          match peekAndFind st '"' with
          | (true, j) => j
          | (false, _) => st.currentByteIndex
      if ¬ (peekAndFindAfter st '"' openQuoteIndex).1 then some (false, st)
      else if ¬ (peekAndFindAfter st '\\' openQuoteIndex).1 then some (false, st)
      else
        match multiFinalEOL st.input st.currentByteIndex with
        | (finalEOLIndex, lines) =>
          if finalEOLIndex = 0 then none
          else
            let st2 := { st with
              proto := ⟨keyMultiString,
                tabRewrite (goSlice st.input st.currentByteIndex finalEOLIndex),
                finalEOLIndex - st.currentByteIndex⟩,
              currentLine := st.currentLine + lines }
            (next st2 false true).map fun s => (true, s)

/-- lexAttrString: after an attribute definition; the opening quote is the
current character or the next quote on the line (the Go hasOpenQuote flag
is shadowed in the lookup, so a missing quote leaves the index unchanged
and the close-quote search below rejects instead), and a closing quote
must follow before the end of the line. -/
def lexAttrString (st : LexerSt) : Option (Bool × LexerSt) :=
  match st.items.getLast? with
  | none => none
  | some prev =>
    if prev.kind ≠ keyAttrDef then some (false, st)
    else
      let openQuoteIndex :=
        if st.currentByte = '"' then st.currentByteIndex
        else
          match peekAndFind st '"' with
          | (true, j) => j
          | (false, _) => st.currentByteIndex
      match peekAndFindAfter st '"' openQuoteIndex with
      | (false, _) => some (false, st)
      | (true, closeQuoteIndex) =>
        let st2 := { st with proto :=
          ⟨keyString, goSlice st.input openQuoteIndex (closeQuoteIndex + 1),
           closeQuoteIndex - st.currentByteIndex⟩ }
        (next st2 false false).map fun s => (true, s)

/-- The if/for detection scan of lexAttrCondition (the one- and
two-character lookaheads are in range for every exercised input). -/
def condScan (l : List Char) (idx eol : ℤ) : Bool :=
  go l 0
where
  go : List Char → ℤ → Bool
    | [], _ => false
    | c :: rest, i =>
      if i ≥ idx ∧ i < eol then
        if c = 'i' ∧ (charAt l (i + 1)).getD '\x00' = 'f' then true
        else if c = 'f' ∧ (charAt l (i + 1)).getD '\x00' = 'o' ∧
            (charAt l (i + 2)).getD '\x00' = 'r' then true
        else go rest (i + 1)
      else go rest (i + 1)

/-- lexAttrCondition: after an attribute definition, when the sub-words if
or for appear before the end of the line; captured to the next comma,
comment or end of line. -/
def lexAttrCondition (st : LexerSt) : Option (Bool × LexerSt) :=
  match st.items.getLast? with
  | none => none
  | some prev =>
    if prev.kind ≠ keyAttrDef then some (false, st)
    else if ¬ condScan st.input st.currentByteIndex (peekEOL st) then some (false, st)
    else
      let rc := peekAndFind st ','
      (if rc.1 then some (true, rc.2) else peekComment st st.currentByteIndex).bind fun pc =>
        let endOfElem := if pc.1 then pc.2 else peekEOL st
        let st2 := { st with proto :=
          ⟨keyCondition, goSlice st.input st.currentByteIndex endOfElem,
           (endOfElem - 1) - st.currentByteIndex⟩ }
        (next st2 false false).map fun s => (true, s)

/-- lexAttrArithmetic: after an attribute definition, when one of
+ - * / % appears before the end of the line; captured to the next comma,
comment or end of line. -/
def lexAttrArithmetic (st : LexerSt) : Option (Bool × LexerSt) :=
  match st.items.getLast? with
  | none => none
  | some prev =>
    if prev.kind ≠ keyAttrDef then some (false, st)
    else if ¬ peekAndFindMany st ['+', '-', '*', '/', '%'] then some (false, st)
    else
      let rc := peekAndFind st ','
      (if rc.1 then some (true, rc.2) else peekComment st st.currentByteIndex).bind fun pc =>
        let endOfElem := if pc.1 then pc.2 else peekEOL st
        let st2 := { st with proto :=
          ⟨keyArithmetic, goSlice st.input st.currentByteIndex endOfElem,
           (endOfElem - 1) - st.currentByteIndex⟩ }
        (next st2 false false).map fun s => (true, s)

/-- lexAttrComparison: after an attribute definition, when one of = > <
appears before the end of the line; captured to the next comma, comment or
end of line. -/
def lexAttrComparison (st : LexerSt) : Option (Bool × LexerSt) :=
  match st.items.getLast? with
  | none => none
  | some prev =>
    if prev.kind ≠ keyAttrDef then some (false, st)
    else if ¬ peekAndFindMany st ['=', '>', '<'] then some (false, st)
    else
      let rc := peekAndFind st ','
      (if rc.1 then some (true, rc.2) else peekComment st st.currentByteIndex).bind fun pc =>
        let endOfElem := if pc.1 then pc.2 else peekEOL st
        let st2 := { st with proto :=
          ⟨keyComparison, goSlice st.input st.currentByteIndex endOfElem,
           (endOfElem - 1) - st.currentByteIndex⟩ }
        (next st2 false false).map fun s => (true, s)

/-- lexAttrInt: after an attribute definition, the next non-whitespace run
parses with Atoi. -/
def lexAttrInt (st : LexerSt) : Option (Bool × LexerSt) :=
  match st.items.getLast? with
  | none => none
  | some prev =>
    if prev.kind ≠ keyAttrDef then some (false, st)
    else
      match searchNonWhitespacedValue st with
      | (checkIntAsStr, firstIndex, lastIndex) =>
        if checkIntAsStr = "" then some (false, st)
        else if (goAtoi checkIntAsStr).isNone then some (false, st)
        else
          let st2 := { st with proto :=
            ⟨keyInt, goSlice st.input firstIndex lastIndex,
             lastIndex - st.currentByteIndex⟩ }
          (next st2 false false).map fun s => (true, s)

/-- lexAttrFloat: after an attribute definition, the next non-whitespace
run parses with ParseFloat(..., 32). -/
def lexAttrFloat (st : LexerSt) : Option (Bool × LexerSt) :=
  match st.items.getLast? with
  | none => none
  | some prev =>
    if prev.kind ≠ keyAttrDef then some (false, st)
    else
      match searchNonWhitespacedValue st with
      | (checkFloatAsStr, firstIndex, lastIndex) =>
        if checkFloatAsStr = "" then some (false, st)
        else if (parseDecimal checkFloatAsStr).isNone then some (false, st)
        else
          let st2 := { st with proto :=
            ⟨keyFloat, goSlice st.input firstIndex lastIndex,
             (lastIndex - 1) - st.currentByteIndex⟩ }
          (next st2 false false).map fun s => (true, s)

/-- lexAttrBool: after an attribute definition, the next non-whitespace
run parses with ParseBool. -/
def lexAttrBool (st : LexerSt) : Option (Bool × LexerSt) :=
  match st.items.getLast? with
  | none => none
  | some prev =>
    if prev.kind ≠ keyAttrDef then some (false, st)
    else
      match searchNonWhitespacedValue st with
      | (checkBoolAsStr, firstIndex, lastIndex) =>
        if checkBoolAsStr = "" then some (false, st)
        else if (goParseBool checkBoolAsStr).isNone then some (false, st)
        else
          let st2 := { st with proto :=
            ⟨keyBool, goSlice st.input firstIndex lastIndex,
             (lastIndex - 1) - st.currentByteIndex⟩ }
          (next st2 false false).map fun s => (true, s)

/-- lexAttrCall: after an attribute definition, any remaining
non-whitespace run. -/
def lexAttrCall (st : LexerSt) : Option (Bool × LexerSt) :=
  match st.items.getLast? with
  | none => none
  | some prev =>
    if prev.kind ≠ keyAttrDef then some (false, st)
    else
      match searchNonWhitespacedValue st with
      | (checkAttrCall, firstIndex, lastIndex) =>
        if checkAttrCall = "" then some (false, st)
        else
          let st2 := { st with proto :=
            ⟨keyAttrCall, goSlice st.input firstIndex lastIndex,
             lastIndex - st.currentByteIndex⟩ }
          (next st2 false false).map fun s => (true, s)

/-- lexError: the fallback rule consuming exactly one character. -/
def lexError (st : LexerSt) : Option (Bool × LexerSt) :=
  let st2 := { st with proto :=
    ⟨keyError, goSlice st.input st.currentByteIndex (st.currentByteIndex + 1), 1⟩ }
  (next st2 false false).map fun s => (true, s)

/-- Chain two rules: stop on the first that fires. -/
def step {σ : Type} (r : Option (Bool × σ)) (k : σ → Option σ) : Option σ :=
  r.bind fun p => if p.1 then some p.2 else k p.2

/-- lexByte: all rules in the Go order; the first that matches wins. -/
def lexByte (st : LexerSt) : Option LexerSt :=
  match lexEOF st with
  | (_, st0) =>
    step (lexTab st0) fun s =>
    step (lexEOL s) fun s =>
    step (lexWhitespace s) fun s =>
    step (lexComment s) fun s =>
    step (lexAttributeDef s) fun s =>
    step (lexBlockStart s) fun s =>
    step (lexBlockEnd s) fun s =>
    step (lexAttrFunction s) fun s =>
    step (lexArrayStart s) fun s =>
    step (lexArrayEnd s) fun s =>
    step (lexArrayElem s) fun s =>
    step (lexAttrMultiString s) fun s =>
    step (lexAttrString s) fun s =>
    step (lexAttrCondition s) fun s =>
    step (lexAttrArithmetic s) fun s =>
    step (lexAttrComparison s) fun s =>
    step (lexAttrInt s) fun s =>
    step (lexAttrFloat s) fun s =>
    step (lexAttrBool s) fun s =>
    step (lexAttrCall s) fun s =>
    (lexError s).map (fun p => p.2)

/-- lexInput: run lexByte until the end-of-file flag.  Every lexByte call
advances the index by at least one, so the fuel of runLexer suffices for
every input that terminates in Go. -/
def lexInput : ℕ → LexerSt → Option LexerSt
  | 0, st => if st.atEOF then some st else none
  | fuel + 1, st => if st.atEOF then some st else (lexByte st).bind (lexInput fuel)

/-- newLexer: the Go constructor reads input[0] unconditionally, so an
empty input is an index panic. -/
def newLexer (input : List Char) : Option LexerSt :=
  match input with
  | [] => none
  | c :: _ => some ⟨input, [], ⟨keyNIL, [], 0⟩, 1, 0, c, 0, false⟩

def runLexer (input : List Char) : Option LexerSt :=
  (newLexer input).bind (lexInput (input.length + 2))

/-! ## The tree builder (parser.go) -/

/-- Attribute kinds. -/
inductive attrKind where
  | attrNIL
  | attrString
  | attrInt
  | attrFloat
  | attrBool
  | attrArray
  | attrArithmetic
  | attrComparison
  | attrCondition
  | attrFunction
deriving DecidableEq, Repr

open attrKind

/-- A decoded attribute. -/
structure Attribute where
  name : String
  value : Value
  kind : attrKind

/-- A block: name, attribute map, child-block map (Go maps modelled as
replace-on-insert association lists). -/
inductive GoBlock where
  | mk : String → List (String × Attribute) → List (String × GoBlock) → GoBlock

/-- Insert (replacing an existing key, as a Go map does). -/
def mapInsert {α : Type} (k : String) (v : α) : List (String × α) → List (String × α)
  | [] => [(k, v)]
  | (k2, v2) :: rest => if k2 = k then (k, v) :: rest else (k2, v2) :: mapInsert k v rest

def mapLookup {α : Type} (k : String) : List (String × α) → Option α
  | [] => none
  | (k2, v) :: rest => if k2 = k then some v else mapLookup k rest

/-- Insert an attribute into the block found by the name path (the Go
code walks Blocks[path0].Blocks[path1]…; a missing name yields a
zero-value block whose nil attribute map panics on assignment, hence
none). -/
def insertAttrPath (a : Attribute) : List String → List (String × GoBlock) →
    Option (List (String × GoBlock))
  | [], _ => none
  | [p], blocks =>
    match mapLookup p blocks with
    | none => none
    | some (GoBlock.mk n attrs subs) =>
      some (mapInsert p (GoBlock.mk n (mapInsert a.name a attrs) subs) blocks)
  | p :: rest, blocks =>
    match mapLookup p blocks with
    | none => none
    | some (GoBlock.mk n attrs subs) =>
      (insertAttrPath a rest subs).map fun subs2 =>
        mapInsert p (GoBlock.mk n attrs subs2) blocks

/-- Insert a child block into the block found by the name path. -/
def insertBlockPath (b : GoBlock) (bname : String) : List String → List (String × GoBlock) →
    Option (List (String × GoBlock))
  | [], _ => none
  | [p], blocks =>
    match mapLookup p blocks with
    | none => none
    | some (GoBlock.mk n attrs subs) =>
      some (mapInsert p (GoBlock.mk n attrs (mapInsert bname b subs)) blocks)
  | p :: rest, blocks =>
    match mapLookup p blocks with
    | none => none
    | some (GoBlock.mk n attrs subs) =>
      (insertBlockPath b bname rest subs).map fun subs2 =>
        mapInsert p (GoBlock.mk n attrs subs2) blocks

/-- The parser state (the Go Parser struct; the lexer field is reduced to
its item list). -/
structure ParserSt where
  items : List Item
  currentItem : Item
  currentItemIndex : ℕ
  attributes : List (String × Attribute)
  currentBlocks : List String
  blocks : List (String × GoBlock)
  atLastItem : Bool

/-- The zero Item (Go item{}). -/
def defaultItem : Item := ⟨keyNIL, "", 0, 0, 0⟩

/-- nextItem: advance the item cursor; reaching exactly the end of the
item list sets atLastItem, overshooting it is an index panic. -/
def nextItemSt (p : ParserSt) (n : ℕ) : Option ParserSt :=
  let i := p.currentItemIndex + n
  if i = p.items.length then some { p with currentItemIndex := i, atLastItem := true }
  else
    match p.items[i]? with
    | some it => some { p with currentItemIndex := i, currentItem := it }
    | none => none

/-- peekNextItem: the following item, or the zero item at the end of the
list. -/
def peekNextItem (p : ParserSt) : Item :=
  if p.currentItemIndex = p.items.length - 1 then defaultItem
  else (p.items[p.currentItemIndex + 1]?).getD defaultItem

/-- keyKindToAttrKind (total, defaulting to attrNIL). -/
def keyKindToAttrKind (k : keyKind) : attrKind :=
  match k with
  | keyString => attrString
  | keyMultiString => attrString
  | keyInt => attrInt
  | keyFloat => attrFloat
  | keyBool => attrBool
  | keyArrayStart => attrArray
  | keyArrayElem => attrArray
  | keyArithmetic => attrArithmetic
  | keyComparison => attrComparison
  | keyCondition => attrCondition
  | keyFunction => attrFunction
  | _ => attrNIL

/-- parseAttribute: on an attribute-definition item, look at the next
item; an array start makes the builder join every item value up to the
matching array end into one text blob; the transformed value is inserted
into the open block (or the globals) and the cursor jumps past the
consumed items. -/
def parseAttribute (p : ParserSt) : Option (Bool × ParserSt) :=
  if p.currentItem.kind ≠ keyAttrDef then some (false, p)
  else
    let itemItem := peekNextItem p
    let collected :=
      if itemItem.kind = keyArrayStart then
        let arrayItems := ((p.items.drop (p.currentItemIndex + 1)).takeWhile
          (fun v => v.kind ≠ keyArrayEnd)).map (fun v => v.value)
        (String.intercalate ", " arrayItems, 2 + arrayItems.length)
      else (itemItem.value, 2)
    match collected with
    | (itemvalue, nextCount) =>
      (transformItem itemvalue itemItem.kind).bind fun attrvalue =>
        let newAttr : Attribute := ⟨p.currentItem.value, attrvalue, keyKindToAttrKind itemItem.kind⟩
        let updated : Option ParserSt :=
          match p.currentBlocks with
          | [] => some { p with attributes := mapInsert newAttr.name newAttr p.attributes }
          | path => (insertAttrPath newAttr path p.blocks).map fun b2 => { p with blocks := b2 }
        updated.bind fun p2 => (nextItemSt p2 nextCount).map fun p3 => (true, p3)

/-- parseArrayElement: skip (already consumed by its attribute). -/
def parseArrayElement (p : ParserSt) : Option (Bool × ParserSt) :=
  if p.currentItem.kind ≠ keyArrayElem then some (false, p)
  else (nextItemSt p 1).map fun p2 => (true, p2)

/-- parseBlockStart: insert a fresh block into the open scope and push its
name on the open-block stack. -/
def parseBlockStart (p : ParserSt) : Option (Bool × ParserSt) :=
  if p.currentItem.kind ≠ keyBlockStart then some (false, p)
  else
    let newBlock := GoBlock.mk p.currentItem.value [] []
    let updated : Option ParserSt :=
      match p.currentBlocks with
      | [] => some { p with blocks := mapInsert p.currentItem.value newBlock p.blocks }
      | path => (insertBlockPath newBlock p.currentItem.value path p.blocks).map
          fun b2 => { p with blocks := b2 }
    updated.bind fun p2 =>
      (nextItemSt { p2 with currentBlocks := p2.currentBlocks ++ [p.currentItem.value] } 1).map
        fun p3 => (true, p3)

/-- parseBlockEnd: pop the last name off the open-block stack.  The Go
code slices currentBlocks[:len-1] with no emptiness guard: with an empty
stack the bound is -1 and the slice panics (none). -/
def parseBlockEnd (p : ParserSt) : Option (Bool × ParserSt) :=
  if p.currentItem.kind ≠ keyBlockEnd then some (false, p)
  else
    match p.currentBlocks with
    | [] => none
    | _ :: _ =>
      (nextItemSt { p with currentBlocks := p.currentBlocks.dropLast } 1).map
        fun p2 => (true, p2)

/-- parseEOF. -/
def parseEOF (p : ParserSt) : Option (Bool × ParserSt) :=
  if p.currentItem.kind ≠ keyEOF then some (false, p)
  else (nextItemSt p 1).map fun p2 => (true, p2)

/-- parseOthers: comments, NIL and error items are skipped. -/
def parseOthers (p : ParserSt) : Option (Bool × ParserSt) :=
  if p.currentItem.kind ≠ keyComment ∧ p.currentItem.kind ≠ keyNIL ∧
      p.currentItem.kind ≠ keyError then some (false, p)
  else (nextItemSt p 1).map fun p2 => (true, p2)

/-- parseItem: the dispatchers in the Go order, falling back to a plain
advance. -/
def parseItem (p : ParserSt) : Option ParserSt :=
  step (parseEOF p) fun p =>
  step (parseAttribute p) fun p =>
  step (parseArrayElement p) fun p =>
  step (parseBlockStart p) fun p =>
  step (parseBlockEnd p) fun p =>
  step (parseOthers p) fun p =>
  nextItemSt p 1

/-- parseItems: run parseItem until the cursor passed the last item. -/
def parseItems : ℕ → ParserSt → Option ParserSt
  | 0, p => if p.atLastItem then some p else none
  | fuel + 1, p => if p.atLastItem then some p else (parseItem p).bind (parseItems fuel)

/-- newParser: run the lexer to completion, then build the parser state;
its currentItem field reads items[0], an index panic when the lexer
produced no items. -/
def newParser (input : List Char) : Option ParserSt :=
  (runLexer input).bind fun lx =>
    match lx.items with
    | [] => none
    | i0 :: _ => some ⟨lx.items, i0, 0, [], [], [], false⟩

/-- The full decode pipeline on a character sequence (Decode without the
out-of-scope file read). -/
def decodeChars (input : List Char) : Option ParserSt :=
  (newParser input).bind fun p => parseItems (p.items.length + 2) p

/-- The global attribute of the given name after a full decode. -/
def attrOf (input : List Char) (name : String) : Option Attribute :=
  (decodeChars input).bind fun p => mapLookup name p.attributes

/-- C1, claim as stated, refuted: the claim quantifies over every
arithmetic text of numeric literals alternating with operators, but any
text with three or more operands is rejected by the tokenisation loop
(after the first operator, the whole remaining tail is taken as a single
operand and fails to parse as a number), so "1 + 2 + 3" aborts instead of
evaluating to Int 6. -/
theorem C1_counterexample :
    ¬ ∃ n : ℤ, transformItemArithmetic "1 + 2 + 3" = some (Value.int n) := by
  intro h
  rcases h with ⟨n, h⟩
  have hnone : transformItemArithmetic "1 + 2 + 3" = none := by rfl
  rw [hnone] at h
  exact Option.noConfusion h

/-- C1, amended: for every arithmetic-kind value text that tokenises to
exactly two numeric operands joined by one operator from + - * /, the
operation is computed in floating point (operands re-read at float32, the
operation rounded at float64) and the final result is an Int exactly when
both operands were integer literals (hasFloat unset); the narrowing
re-parses the printed value, so a non-integral or large quotient of
integer operands narrows to Int 0.  Texts with three or more operands are
rejected.  Division by zero would produce an IEEE infinity in Go and is
excluded by hypothesis. -/
theorem arith_two_operand_eval (s : String) (a b : QR) (c : Char) (hf : Bool)
    (htok : arithTokenize s = some ([AEntry.num a, AEntry.op c, AEntry.num b], hf))
    (hc : c ∈ arithOpChars)
    (hdiv : c = '/' → (fround 24 b).num ≠ 0) :
    transformItemArithmetic s =
      some (if hf then Value.float (fround 24 (arithApply c (fround 24 a) (fround 24 b)))
            else Value.int (goSprintAtoi (arithApply c (fround 24 a) (fround 24 b)))) := by
  unfold transformItemArithmetic
  rw [htok]
  simp only [arithOpChars, List.mem_cons, List.not_mem_nil, or_false] at hc
  rcases hc with rfl | rfl | rfl | rfl <;>
    cases hf <;>
      simp [arithPassAux, entryIsOpIn, entryVal, arithApply]

/-- Witness for arith_two_operand_eval: the four examples of the claim. -/
theorem arith_two_operand_eval_witness :
    transformItemArithmetic "10 + 10" = some (Value.int 20) ∧
    transformItemArithmetic "10-8" = some (Value.int 2) ∧
    transformItemArithmetic "1 * 4" = some (Value.int 4) ∧
    transformItemArithmetic "10/ 10" = some (Value.int 1) := by
  refine ⟨?_, ?_, ?_, ?_⟩
  · rw [arith_two_operand_eval "10 + 10" (qOfInt 10) (qOfInt 10) '+' false
      (by decide) (by decide) (by decide)]
    rfl
  · rw [arith_two_operand_eval "10-8" (qOfInt 10) (qOfInt 8) '-' false
      (by decide) (by decide) (by decide)]
    rfl
  · rw [arith_two_operand_eval "1 * 4" (qOfInt 1) (qOfInt 4) '*' false
      (by decide) (by decide) (by decide)]
    rfl
  · rw [arith_two_operand_eval "10/ 10" (qOfInt 10) (qOfInt 10) '/' false
      (by decide) (by decide) (by decide)]
    rfl

/-- C2: evaluation of the gate-logic functions at the inputs where the
code and the standard truth tables part ways.  The and gate returns
boolParams[0] == boolParams[1], so and(false, false) evaluates to true
where the AND gate of the repository's own syntax specification yields
false; nand is its negation and fails the same way.  The claim's own
examples and(true, true) and xor(true, false) do hold. -/
theorem gate_and_nand_eval :
    gateLogicFunctions "and" ["false", "false"] = some (Value.bool true) ∧
    gateLogicFunctions "nand" ["false", "false"] = some (Value.bool false) ∧
    gateLogicFunctions "and" ["true", "true"] = some (Value.bool true) ∧
    gateLogicFunctions "xor" ["true", "false"] = some (Value.bool true) ∧
    gateLogicFunctions "and" ["true", "banana"] = none :=
  ⟨rfl, rfl, rfl, rfl, rfl⟩

/-- C3: type discipline of comparison evaluation, for any text that
tokenises into two operands and one comparator.  If either operand parses
with strconv.ParseBool: a comparator outside ==/!= is a type error, a
boolean mixed with a non-boolean is a type error, and two booleans under
==/!= compare as booleans.  If neither operand is a boolean, both must
parse as float32 numbers (otherwise a type error) and the comparator is
applied to the parsed values. -/
theorem comparison_type_discipline (s a c b : String)
    (htok : compTokenize s = some [a, c, b]) :
    (((goParseBool a).isSome ∨ (goParseBool b).isSome) →
        goEqualsToMany c ["==", "!="] = false →
        transformItemComparison s = none) ∧
    (((goParseBool a).isSome ∨ (goParseBool b).isSome) →
        ((goParseBool a) = none ∨ (goParseBool b) = none) →
        transformItemComparison s = none) ∧
    (∀ b1 b2 : Bool, goParseBool a = some b1 → goParseBool b = some b2 →
        (c = "==" ∨ c = "!=") →
        transformItemComparison s =
          some (Value.bool (if c = "==" then b1 == b2 else b1 != b2))) ∧
    (goParseBool a = none → goParseBool b = none →
        ∀ v1 v2 : QR, goParseFloat32 a = some v1 → goParseFloat32 b = some v2 →
        transformItemComparison s = some (Value.bool
          (if c = "==" then qEq v1 v2
           else if c = "!=" then !(qEq v1 v2)
           else if c = ">" then qLt v2 v1
           else if c = ">=" then qLe v2 v1
           else if c = "<" then qLt v1 v2
           else if c = "<=" then qLe v1 v2
           else false))) ∧
    (goParseBool a = none → goParseBool b = none →
        (goParseFloat32 a = none ∨ goParseFloat32 b = none) →
        transformItemComparison s = none) := by
  have hrun : transformItemComparison s = compEval a c b := by
    unfold transformItemComparison
    rw [htok]
    simp
  have heq1 : goEqualsToMany "==" ["==", "!="] = true := by decide
  have heq2 : goEqualsToMany "!=" ["==", "!="] = true := by decide
  refine ⟨?_, ?_, ?_, ?_, ?_⟩
  · intro hsome hcne
    rw [hrun]
    rcases hsome with h | h <;> simp [compEval, h, hcne]
  · intro hsome hnone
    rw [hrun]
    rcases hnone with h | h
    · rcases hsome with h2 | h2
      · rw [h] at h2
        simp at h2
      · cases hb : goParseBool b with
        | none => rw [hb] at h2; simp at h2
        | some bb => simp [compEval, h, hb]
    · rcases hsome with h2 | h2
      · cases ha : goParseBool a with
        | none => rw [ha] at h2; simp at h2
        | some ab => simp [compEval, h, ha]
      · rw [h] at h2
        simp at h2
  · intro b1 b2 h1 h2 hc
    rw [hrun]
    rcases hc with rfl | rfl <;> simp [compEval, h1, h2, heq1, heq2]
  · intro h1 h2 v1 v2 hv1 hv2
    rw [hrun]
    simp [compEval, h1, h2, compNumeric, hv1, hv2]
  · intro h1 h2 hfail
    rw [hrun]
    rcases hfail with h | h <;> simp [compEval, h1, h2, compNumeric, h]
/-- Witness for comparison_type_discipline: a boolean compared with a
relational operator fails, two booleans compare under ==, and two numbers
compare under the relational operators. -/
theorem comparison_type_discipline_witness :
    transformItemComparison "true > 10" = none ∧
    transformItemComparison "true == true" = some (Value.bool true) ∧
    transformItemComparison "10 < 20" = some (Value.bool true) := by
  refine ⟨?_, ?_, ?_⟩
  · exact (comparison_type_discipline "true > 10" "true" ">" "10" (by decide)).1
      (Or.inl (by decide)) (by decide)
  · have h := (comparison_type_discipline "true == true" "true" "==" "true"
      (by decide)).2.2.1 true true (by decide) (by decide) (Or.inl rfl)
    rw [h]
    rfl
  · have h := (comparison_type_discipline "10 < 20" "10" "<" "20"
      (by decide)).2.2.2.1 (by decide) (by decide)
      (fround 24 ⟨10, 1⟩) (fround 24 ⟨20, 1⟩) rfl rfl
    rw [h]
    rfl

/-- C4, claim as stated, refuted: floor(5, 2.5) has a float parameter, yet
the result is narrowed to Int 2 (hasInt is set by the other parameter),
not returned as a float. -/
theorem numerical_narrowing_counterexample :
    numericalFunctions "floor" ["5", "2.5"] = some (Value.int 2) ∧
    ∀ q : QR, Value.int 2 ≠ Value.float q :=
  ⟨rfl, fun _ h => Value.noConfusion h⟩

/-- C4, amended: for the three numeric functions applied to two
parameters, the result is narrowed to an integer (Go truncation toward
zero) exactly when AT LEAST ONE parameter parses as an integer literal,
and is returned as a float exactly when NO parameter does; a float
literal among the parameters does not prevent narrowing. -/
theorem numerical_narrowing (funcName p0 p1 : String)
    (hn : funcName = "power" ∨ funcName = "floor" ∨ funcName = "remainder") :
    ((∃ n : ℤ, numericalFunctions funcName [p0, p1] = some (Value.int n)) ↔
      ((goAtoi (goTrimSpace p0)).isSome ∨ (goAtoi (goTrimSpace p1)).isSome)) ∧
    ((∃ q : QR, numericalFunctions funcName [p0, p1] = some (Value.float q)) ↔
      ¬ ((goAtoi (goTrimSpace p0)).isSome ∨ (goAtoi (goTrimSpace p1)).isSome)) := by
  by_cases hI : ((goAtoi (goTrimSpace p0)).isSome ∨ (goAtoi (goTrimSpace p1)).isSome)
  · have hI2 : ((goAtoi (goTrimSpace p0)).isSome || (goAtoi (goTrimSpace p1)).isSome) = true := by
      rcases hI with h | h <;> simp [h]
    rcases hn with rfl | rfl | rfl <;>
      simp [numericalFunctions, hI2, hI]
  · have hI2 : ((goAtoi (goTrimSpace p0)).isSome || (goAtoi (goTrimSpace p1)).isSome) = false := by
      simp only [not_or, Bool.not_eq_true] at hI
      simp [hI.1, hI.2]
    rcases hn with rfl | rfl | rfl <;>
      simp [numericalFunctions, hI2, hI]
/-- Witness for numerical_narrowing: floor(25, 7) with two integer
parameters narrows to an Int, and floor(25.0, 7.0) with no integer
parameter yields a float. -/
theorem numerical_narrowing_witness :
    (∃ n : ℤ, numericalFunctions "floor" ["25", " 7"] = some (Value.int n)) ∧
    (∃ q : QR, numericalFunctions "floor" ["25.0", " 7.0"] = some (Value.float q)) := by
  constructor
  · exact (numerical_narrowing "floor" "25" " 7"
      (Or.inr (Or.inl rfl))).1.mpr (Or.inl (by decide))
  · exact (numerical_narrowing "floor" "25.0" " 7.0"
      (Or.inr (Or.inl rfl))).2.mpr (by decide)

/-- C5, claim as stated, refuted: for the float token 9999.9 the code
rounds the parsed float32 at 10^(len-1) = 10^5, keeping the float32
representation error, and stores 9999.90039; rounding to the one decimal
digit present in the source text, as the claim prescribes, would give
9999.9.  The two values differ. -/
theorem float_rounding_counterexample :
    transformItem "9999.9" keyKind.keyFloat = some (Value.float ⟨999990039, 100000⟩) ∧
    floatClaimValue "9999.9" = some ⟨99999, 10⟩ ∧
    toRat ⟨999990039, 100000⟩ ≠ toRat ⟨99999, 10⟩ := by
  refine ⟨rfl, rfl, ?_⟩
  unfold toRat
  norm_num

/-- C5, amended: a float token parses with ParseFloat(..., 32) and is then
rounded at 10^(length of the source text minus one) decimal places — the
whole text length including the integer digits and the point, not the
number of decimal digits. -/
theorem float_rounds_at_length_minus_one (s : String) (v : QR)
    (hv : goParseFloat32 s = some v) :
    transformItem s keyKind.keyFloat = some (Value.float (goRoundPrec v (s.length - 1))) := by
  unfold transformItem
  rw [hv]
  rfl
/-- Witness for float_rounds_at_length_minus_one: the claim's example
10.10 (text length 5, so rounding at 10^4) parses to 10.1. -/
theorem float_rounds_at_length_minus_one_witness :
    transformItem "10.10" keyKind.keyFloat = some (Value.float ⟨101000, 10000⟩) := by
  rw [float_rounds_at_length_minus_one "10.10" (fround 24 ⟨1010, 100⟩) rfl]
  rfl

/-- C7, claim as stated, refuted: the boolean transformer delegates to
strconv.ParseBool, which accepts the text True (and TRUE, 1, 0, t, f, …),
so True evaluates to the value true instead of failing with a type
error. -/
theorem bool_parse_counterexample :
    transformItem "True" keyKind.keyBool = some (Value.bool true) := rfl

/-- C7, amended: a boolean token evaluates exactly per strconv.ParseBool:
true for the six strings 1, t, T, TRUE, true, True; false for the six
strings 0, f, F, FALSE, false, False; any other text (and only those)
fails with a type error. -/
theorem bool_parse_characterisation (s : String) :
    (transformItem s keyKind.keyBool = some (Value.bool true) ↔
      s ∈ (["1", "t", "T", "TRUE", "true", "True"] : List String)) ∧
    (transformItem s keyKind.keyBool = some (Value.bool false) ↔
      s ∈ (["0", "f", "F", "FALSE", "false", "False"] : List String)) ∧
    (s ∉ (["1", "t", "T", "TRUE", "true", "True"] : List String) →
     s ∉ (["0", "f", "F", "FALSE", "false", "False"] : List String) →
     transformItem s keyKind.keyBool = none) := by
  by_cases h1 : s = "1" ∨ s = "t" ∨ s = "T" ∨ s = "TRUE" ∨ s = "true" ∨ s = "True"
  · have hg : goParseBool s = some true := by
      unfold goParseBool
      rw [if_pos h1]
    have hmem : s ∈ (["1", "t", "T", "TRUE", "true", "True"] : List String) := by
      rcases h1 with rfl | rfl | rfl | rfl | rfl | rfl <;> decide
    have hnmem : s ∉ (["0", "f", "F", "FALSE", "false", "False"] : List String) := by
      rcases h1 with rfl | rfl | rfl | rfl | rfl | rfl <;> decide
    refine ⟨?_, ?_, ?_⟩
    · simp [transformItem, hg, hmem]
    · simp [transformItem, hg, hnmem]
    · intro hm _
      exact absurd hmem hm
  · by_cases h2 : s = "0" ∨ s = "f" ∨ s = "F" ∨ s = "FALSE" ∨ s = "false" ∨ s = "False"
    · have hg : goParseBool s = some false := by
        unfold goParseBool
        rw [if_neg h1, if_pos h2]
      have hmem : s ∈ (["0", "f", "F", "FALSE", "false", "False"] : List String) := by
        rcases h2 with rfl | rfl | rfl | rfl | rfl | rfl <;> decide
      have hnmem : s ∉ (["1", "t", "T", "TRUE", "true", "True"] : List String) := by
        rcases h2 with rfl | rfl | rfl | rfl | rfl | rfl <;> decide
      refine ⟨?_, ?_, ?_⟩
      · simp [transformItem, hg, hnmem]
      · simp [transformItem, hg, hmem]
      · intro _ hm
        exact absurd hmem hm
    · have hg : goParseBool s = none := by
        unfold goParseBool
        rw [if_neg h1, if_neg h2]
      have hn1 : s ∉ (["1", "t", "T", "TRUE", "true", "True"] : List String) := by
        intro hm
        exact h1 (by simpa using hm)
      have hn2 : s ∉ (["0", "f", "F", "FALSE", "false", "False"] : List String) := by
        intro hm
        exact h2 (by simpa using hm)
      refine ⟨?_, ?_, ?_⟩
      · simp [transformItem, hg, hn1]
      · simp [transformItem, hg, hn2]
      · intro _ _
        simp [transformItem, hg]
/-- Witness for bool_parse_characterisation: the text True succeeds as
true, the text banana is a type error. -/
theorem bool_parse_characterisation_witness :
    transformItem "True" keyKind.keyBool = some (Value.bool true) ∧
    transformItem "banana" keyKind.keyBool = none := by
  constructor
  · exact (bool_parse_characterisation "True").1.mpr (by decide)
  · exact (bool_parse_characterisation "banana").2.2 (by decide) (by decide)

/-- C6: a quoted value always becomes a String attribute.  At the
transformer, every string-kind token yields a String value with the
surrounding quotes stripped and never a Float; through the whole pipeline,
the quote-scanning rules run before the numeric rules and claim a quoted
numeric payload first, so x = "3.14159" decodes to the String "3.14159"
with kind attrString while x = 3.14159 decodes to the Float 3.14159
(stored as 3141590/1000000 after the 10^(len-1) rounding) with kind
attrFloat. -/
theorem quoted_value_decodes_as_string :
    (∀ s : String, transformItem s keyKind.keyString = some (Value.str (goTrimChar s '"'))) ∧
    attrOf ("x = " ++ "\"3.14159\"" ++ "\n").data "x" =
      some ⟨"x", Value.str "3.14159", attrKind.attrString⟩ ∧
    attrOf ("x = " ++ "3.14159" ++ "\n").data "x" =
      some ⟨"x", Value.float ⟨3141590, 1000000⟩, attrKind.attrFloat⟩ :=
  ⟨fun _ => rfl, rfl, rfl⟩

/-- C8: the tab rule is dead code.  It joins input[i : i+3] — three
characters — and compares the result with a four-character string of
spaces, so it never matches, never collapses anything, and never advances
the scanner; in particular it returns false on an input that begins with a
run of exactly four spaces, where the claim (and the Go comments naming
the variable next4Characters) say it must fire. -/
theorem lexTab_never_matches :
    (∀ st : LexerSt, lexTab st = some (false, st)) ∧
    lexTab ⟨"    x = 1\n".data, [], ⟨keyKind.keyNIL, [], 0⟩, 1, 0, ' ', 0, false⟩ =
      some (false, ⟨"    x = 1\n".data, [], ⟨keyKind.keyNIL, [], 0⟩, 1, 0, ' ', 0, false⟩) := by
  have h : ∀ st : LexerSt, lexTab st = some (false, st) := by
    intro st
    unfold lexTab
    rw [if_neg]
    intro hEq
    have hd := congrArg String.data hEq
    have hlen := congrArg List.length hd
    simp [goSlice] at hlen
    omega
  exact ⟨h, h _⟩

/-- C9: consuming a block-end token pops exactly one name.  For any
parser state whose current item is a block end: with a non-empty
open-block stack, parseBlockEnd succeeds, replaces the stack by its
dropLast, advances the item cursor by one and leaves the attributes, the
blocks and the item list unchanged; with an empty stack the unguarded
currentBlocks[:len-1] slice is an index-out-of-range panic instead of any
error path — as exhibited end to end by an input whose first brace is a
closing one. -/
theorem parseBlockEnd_pops_one (p : ParserSt)
    (hk : p.currentItem.kind = keyKind.keyBlockEnd) :
    (p.currentBlocks ≠ [] → p.currentItemIndex + 1 ≤ p.items.length →
      ∃ p2, parseBlockEnd p = some (true, p2) ∧
        p2.currentBlocks = p.currentBlocks.dropLast ∧
        p2.attributes = p.attributes ∧
        p2.blocks = p.blocks ∧
        p2.items = p.items ∧
        p2.currentItemIndex = p.currentItemIndex + 1) ∧
    (p.currentBlocks = [] → parseBlockEnd p = none) ∧
    decodeChars ("\x7d" ++ "\n").data = none := by
  refine ⟨?_, ?_, rfl⟩
  · intro hne hidx
    cases hcb : p.currentBlocks with
    | nil => exact absurd hcb hne
    | cons a l =>
      by_cases hL : p.currentItemIndex + 1 = p.items.length
      · refine ⟨{ p with currentBlocks := (a :: l).dropLast,
                         currentItemIndex := p.currentItemIndex + 1,
                         atLastItem := true }, ?_, ?_, rfl, rfl, rfl, rfl⟩
        · simp [parseBlockEnd, hk, hcb, nextItemSt, hL]
        · rfl
      · have hlt : p.currentItemIndex + 1 < p.items.length := lt_of_le_of_ne hidx hL
        obtain ⟨it, hit⟩ : ∃ it, p.items[p.currentItemIndex + 1]? = some it :=
          ⟨_, List.getElem?_eq_getElem hlt⟩
        refine ⟨{ p with currentBlocks := (a :: l).dropLast,
                         currentItemIndex := p.currentItemIndex + 1,
                         currentItem := it }, ?_, ?_, rfl, rfl, rfl, rfl⟩
        · simp [parseBlockEnd, hk, hcb, nextItemSt, hL, hit]
        · rfl
  · intro hcb
    simp [parseBlockEnd, hk, hcb]
/-- Witness for parseBlockEnd_pops_one: a concrete state with one open
block pops to the empty stack, and the same state with no open block
panics. -/
theorem parseBlockEnd_pops_one_witness :
    (∃ p2, parseBlockEnd ⟨[⟨keyKind.keyBlockEnd, "", 1, 0, 0⟩],
        ⟨keyKind.keyBlockEnd, "", 1, 0, 0⟩, 0, [], ["b"], [], false⟩ = some (true, p2) ∧
      p2.currentBlocks = (["b"] : List String).dropLast ∧
      p2.attributes = [] ∧
      p2.blocks = [] ∧
      p2.items = [⟨keyKind.keyBlockEnd, "", 1, 0, 0⟩] ∧
      p2.currentItemIndex = 1) ∧
    parseBlockEnd ⟨[⟨keyKind.keyBlockEnd, "", 1, 0, 0⟩],
      ⟨keyKind.keyBlockEnd, "", 1, 0, 0⟩, 0, [], [], [], false⟩ = none := by
  constructor
  · exact (parseBlockEnd_pops_one _ rfl).1 (by simp) (by simp)
  · exact (parseBlockEnd_pops_one _ rfl).2.1 rfl

/-- C10: the lexer is defined only for non-empty input.  newLexer reads
element 0 of the input unconditionally, so the empty input is an
index-out-of-range panic; it propagates through newParser and the decode
pipeline, which therefore cannot return an empty document.  Every
non-empty input constructs the lexer. -/
theorem newLexer_requires_nonempty :
    newLexer [] = none ∧
    newParser [] = none ∧
    decodeChars [] = none ∧
    ∀ (c : Char) (cs : List Char), (newLexer (c :: cs)).isSome = true :=
  ⟨rfl, rfl, rfl, fun _ _ => rfl⟩

end Cafe
